import Mathlib

/-!
Verification of the Tauri ACL permission engine
(`core/tauri-utils/src/acl/mod.rs` and `core/tauri-utils/src/acl/manifest.rs`)
via a shallow embedding in Lean 4.

Maps of type `BTreeMap<String, _>` are embedded as association lists kept
sorted by key with strictly increasing keys, matching the canonical form of
a Rust `BTreeMap`; `insert`, `extend` and collection from an iterator are
embedded faithfully as list recursions.
-/

namespace TauriAcl

/-- Modelled from the spec: `acl/value.rs` is not among the provided sources.
The spec describes scope values as a closed sum over a small set of
structured-value shapes (null, bool, number, string, sequence, mapping).
The engine treats these values as opaque; no claim inspects their contents. -/
inductive Value where
  | null : Value
  | bool (b : Bool) : Value
  | number (n : Int) : Value
  | string (s : String) : Value
  | list (elems : List Value) : Value
  | mapping (entries : List (String × Value)) : Value

/-- Modelled from the spec: `platform.rs` is not among the provided sources.
Target platforms a permission may be restricted to; treated as an opaque tag. -/
inductive Target where
  | linux : Target
  | windows : Target
  | macOS : Target
  | android : Target
  | iOS : Target
deriving DecidableEq

/-- Rust's `NonZeroU64`: a positive integer (overflow is irrelevant here). -/
def NonZeroU64 : Type := { n : Nat // 0 < n }

/-- `Commands` from `acl/mod.rs`: allowed and denied commands inside a
permission. -/
structure Commands where
  allow : List String
  deny : List String

/-- `Scopes` from `acl/mod.rs`: allow/deny lists of opaque scope values. -/
structure Scopes where
  allow : Option (List Value)
  deny : Option (List Value)

/-- `Scopes::is_empty` from `acl/mod.rs`:
`self.allow.is_none() && self.deny.is_none()`. -/
def Scopes.is_empty (s : Scopes) : Bool :=
  s.allow.isNone && s.deny.isNone

/-- `Permission` from `acl/mod.rs`. -/
structure Permission where
  version : Option NonZeroU64
  identifier : String
  description : Option String
  commands : Commands
  scope : Scopes
  platforms : Option (List Target)

/-- `PermissionSet` from `acl/mod.rs`. -/
structure PermissionSet where
  identifier : String
  description : String
  permissions : List String

/-- `DefaultPermission` from `acl/manifest.rs`. -/
structure DefaultPermission where
  version : Option NonZeroU64
  description : Option String
  permissions : List String

/-- `PermissionFile` from `acl/manifest.rs`. -/
structure PermissionFile where
  default : Option DefaultPermission
  set : List PermissionSet
  permission : List Permission

/-- A Rust `BTreeMap<String, α>` in canonical form: an association list
sorted strictly by key. -/
abbrev BTreeMap (α : Type) : Type := List (String × α)

namespace BTreeMap

/-- `BTreeMap::insert`: replaces the value when the key is present,
otherwise inserts at the sorted position. -/
def insert {α : Type} : BTreeMap α → String → α → BTreeMap α
  | [], k, v => [(k, v)]
  | (k', v') :: rest, k, v =>
    if k < k' then (k, v) :: (k', v') :: rest
    else if k = k' then (k, v) :: rest
    else (k', v') :: insert rest k v

/-- `BTreeMap::get`: first binding for the key, if any. -/
def lookup {α : Type} : BTreeMap α → String → Option α
  | [], _ => none
  | (k', v') :: rest, k => if k = k' then some v' else lookup rest k

/-- Collecting an iterator of pairs into a `BTreeMap`
(`…collect::<BTreeMap<_, _>>()`): later pairs with an equal key win. -/
def ofList {α : Type} (l : List (String × α)) : BTreeMap α :=
  l.foldl (fun acc kv => acc.insert kv.1 kv.2) []

/-- `BTreeMap::extend`: insert every binding of the second map into the
first, the second map's bindings winning on key clashes. -/
def extend {α : Type} (m other : BTreeMap α) : BTreeMap α :=
  other.foldl (fun acc kv => acc.insert kv.1 kv.2) m

/-- The canonical-form invariant of a `BTreeMap`: keys strictly increase. -/
def WF {α : Type} (m : BTreeMap α) : Prop :=
  m.Pairwise (fun a b => a.1 < b.1)

end BTreeMap

/-- `Manifest` from `acl/manifest.rs`. -/
structure Manifest where
  default_permission : Option PermissionSet
  permissions : BTreeMap Permission
  permission_sets : BTreeMap PermissionSet
  global_scope_schema : Option Value

/-- The `PermissionSet` built from a present `default` in `Manifest::new`:
identifier forced to `"default"`, description defaulted to
`"Default plugin permissions."`. -/
def defaultSetOf (d : DefaultPermission) : PermissionSet :=
  { identifier := "default"
    description := d.description.getD "Default plugin permissions."
    permissions := d.permissions }

/-- The body of the `for permission_file in permission_files` loop in
`Manifest::new`: replace the default when present, then extend the
permission and permission-set maps with the file's declarations collected
into per-file `BTreeMap`s. -/
def Manifest.step (m : Manifest) (f : PermissionFile) : Manifest :=
  let m₁ : Manifest :=
    match f.default with
    | some d => { m with default_permission := some (defaultSetOf d) }
    | none => m
  let m₂ : Manifest :=
    { m₁ with
        permissions :=
          m₁.permissions.extend
            (BTreeMap.ofList (f.permission.map fun p => (p.identifier, p))) }
  { m₂ with
      permission_sets :=
        m₂.permission_sets.extend
          (BTreeMap.ofList (f.set.map fun s =>
            (s.identifier,
              PermissionSet.mk s.identifier s.description s.permissions))) }

/-- `Manifest::new` from `acl/manifest.rs`: fold the loop body over the
permission files in order, starting from the empty manifest carrying the
global scope schema. -/
def Manifest.new (permission_files : List PermissionFile)
    (global_scope_schema : Option Value) : Manifest :=
  permission_files.foldl Manifest.step
    { default_permission := none
      permissions := []
      permission_sets := []
      global_scope_schema := global_scope_schema }

inductive CommandDecision where
  | allow : CommandDecision
  | deny : CommandDecision
  | undefined : CommandDecision
deriving DecidableEq

/-- Modelled from the spec: the access-decision function for a `Commands`
value is not among the provided sources (only the `Commands` data type and
its deny-wins documentation are). Per the spec: membership in `deny` ⇒
deny, unconditionally; otherwise membership in `allow` ⇒ permit; absence
from both is left undefined at this layer. Membership is exact string
equality. -/
def Commands.decide (c : Commands) (cmd : String) : CommandDecision :=
  if cmd ∈ c.deny then .deny
  else if cmd ∈ c.allow then .allow
  else .undefined

/-- A parsed URL (`url::Url`), represented by the eight components the
pattern matcher inspects. `search` and `hash` are stored without their
leading `?` and `#`, and `port` is empty when the URL uses the scheme's
default port, as in the `url` crate. -/
structure Url where
  protocol : String
  username : String
  password : String
  hostname : String
  port : String
  pathname : String
  search : String
  hash : String

/-- `urlpattern::UrlPatternInit`: the optional component pattern strings
produced by parsing a constructor string; `none` means the component was
not written in the pattern text. -/
structure UrlPatternInit where
  protocol : Option String
  username : Option String
  password : Option String
  hostname : Option String
  port : Option String
  pathname : Option String
  search : Option String
  hash : Option String

/-- Split a character list at the first occurrence of `://`, returning the
text before and after it. -/
def splitScheme : List Char → Option (List Char × List Char)
  | [] => none
  | ':' :: '/' :: '/' :: rest => some ([], rest)
  | c :: rest => (splitScheme rest).map fun pr => (c :: pr.1, pr.2)

/-- Modelled from the spec: the `urlpattern` crate's
`UrlPatternInit::parse_constructor_string` is external to this repository.
Parses `scheme://host[/path][?query][#fragment]` into component patterns;
components not written in the text stay absent. Userinfo and port syntax
are not modelled — no pattern this development evaluates uses them. -/
def parseConstructorString (s : String) : Option UrlPatternInit :=
  match splitScheme s.toList with
  | some (schemeChars, cs) =>
    if schemeChars.isEmpty then none
    else
      let hostChars := cs.takeWhile fun c => c != '/' && c != '?' && c != '#'
      let afterHost := cs.drop hostChars.length
      let pathChars := afterHost.takeWhile fun c => c != '?' && c != '#'
      let afterPath := afterHost.drop pathChars.length
      let hasSearch := afterPath.head? = some '?'
      let searchChars :=
        if hasSearch then (afterPath.drop 1).takeWhile fun c => c != '#'
        else []
      let afterSearch :=
        if hasSearch then (afterPath.drop 1).drop searchChars.length
        else afterPath
      let hasHash := afterSearch.head? = some '#'
      some
        { protocol := some (String.mk schemeChars)
          username := none
          password := none
          hostname := some (String.mk hostChars)
          port := none
          pathname :=
            if pathChars.isEmpty then none else some (String.mk pathChars)
          search := if hasSearch then some (String.mk searchChars) else none
          hash :=
            if hasHash then some (String.mk (afterSearch.drop 1)) else none }
  | none => none

/-- First `if` block of `RemoteUrlPattern::from_str` (`acl/mod.rs`):
`init.search.as_ref().map(|p| p.is_empty()).unwrap_or(true)` replaces the
search pattern with `*`. -/
def normalizeSearch (init : UrlPatternInit) : UrlPatternInit :=
  if (init.search.map String.isEmpty).getD true
  then { init with search := some "*" } else init

/-- Second `if` block of `RemoteUrlPattern::from_str` (`acl/mod.rs`):
an absent or empty hash pattern is replaced with `*`. -/
def normalizeHash (init : UrlPatternInit) : UrlPatternInit :=
  if (init.hash.map String.isEmpty).getD true
  then { init with hash := some "*" } else init

/-- Third `if` block of `RemoteUrlPattern::from_str` (`acl/mod.rs`):
an absent, empty or root (`/`) pathname pattern is replaced with `*`. -/
def normalizePathname (init : UrlPatternInit) : UrlPatternInit :=
  if (init.pathname.map fun p => p.isEmpty || p == "/").getD true
  then { init with pathname := some "*" } else init

/-- The normalization `RemoteUrlPattern::from_str` applies to the parsed
`UrlPatternInit` before compiling it (`acl/mod.rs`): the three `if` blocks
in source order. -/
def normalizeInit (init : UrlPatternInit) : UrlPatternInit :=
  normalizePathname (normalizeHash (normalizeSearch init))

/-- `urlpattern::UrlPattern`: a compiled pattern, exposing the eight
component pattern strings that `PartialEq for RemoteUrlPattern` compares. -/
structure UrlPattern where
  protocol : String
  username : String
  password : String
  hostname : String
  port : String
  pathname : String
  search : String
  hash : String

/-- Modelled from the spec: `urlpattern::UrlPattern::parse` is external to
this repository. A component left unspecified in the init compiles to the
full wildcard pattern `*`. -/
def UrlPattern.parse (init : UrlPatternInit) : UrlPattern :=
  { protocol := init.protocol.getD "*"
    username := init.username.getD "*"
    password := init.password.getD "*"
    hostname := init.hostname.getD "*"
    port := init.port.getD "*"
    pathname := init.pathname.getD "*"
    search := init.search.getD "*"
    hash := init.hash.getD "*" }

/-- Modelled from the spec: component matching of the external `urlpattern`
crate, restricted to the constructs the evaluated patterns use — a
component pattern is literal text in which `*` matches any (possibly
empty) character sequence. -/
def globMatch : List Char → List Char → Bool
  | [], t => t.isEmpty
  | '*' :: ps, t => t.tails.any fun suffix => globMatch ps suffix
  | _ :: _, [] => false
  | p :: ps, c :: cs => p == c && globMatch ps cs

/-- A component pattern matches a component of a concrete URL. -/
def matchComponent (pat text : String) : Bool :=
  globMatch pat.toList text.toList

/-- Modelled from the spec: `urlpattern::UrlPattern::test` is external to
this repository; it is fallible (`Result<bool, Error>`), reporting an error
on malformed input and otherwise whether every one of the eight components
matches structurally. -/
def UrlPattern.rawTest (p : UrlPattern) (u : Url) : Except String Bool :=
  if u.protocol.isEmpty then Except.error "malformed URL input"
  else
    Except.ok
      (matchComponent p.protocol u.protocol
        && matchComponent p.username u.username
        && matchComponent p.password u.password
        && matchComponent p.hostname u.hostname
        && matchComponent p.port u.port
        && matchComponent p.pathname u.pathname
        && matchComponent p.search u.search
        && matchComponent p.hash u.hash)

/-- `RemoteUrlPattern` from `acl/mod.rs`: a compiled URL pattern paired
with the original pattern text. -/
structure RemoteUrlPattern where
  pattern : UrlPattern
  source : String

/-- `RemoteUrlPattern::from_str`: parse the constructor string, replace an
absent/empty search and hash and an absent/empty/root pathname with `*`,
then compile. -/
def RemoteUrlPattern.fromStr (s : String) : Option RemoteUrlPattern :=
  (parseConstructorString s).map fun init =>
    { pattern := UrlPattern.parse (normalizeInit init), source := s }

/-- `RemoteUrlPattern::test` from `acl/mod.rs`:
`self.0.test(input).unwrap_or_default()` — a matcher fault degrades to
`false` (non-match) instead of propagating. -/
def RemoteUrlPattern.test (p : RemoteUrlPattern) (u : Url) : Bool :=
  (p.pattern.rawTest u).toOption.getD false

/-- `PartialEq for RemoteUrlPattern` from `acl/mod.rs`: equality is
component-wise over the eight compiled component strings; the stored
source text takes no part. -/
def RemoteUrlPattern.beq (a b : RemoteUrlPattern) : Bool :=
  a.pattern.protocol == b.pattern.protocol
    && a.pattern.username == b.pattern.username
    && a.pattern.password == b.pattern.password
    && a.pattern.hostname == b.pattern.hostname
    && a.pattern.port == b.pattern.port
    && a.pattern.pathname == b.pattern.pathname
    && a.pattern.search == b.pattern.search
    && a.pattern.hash == b.pattern.hash

/-- Parse a pattern text and test a URL against it: `none` when the
pattern text does not parse. -/
def testPattern (s : String) (u : Url) : Option Bool :=
  (RemoteUrlPattern.fromStr s).map fun p => p.test u

/-- The URL `http://tauri.app/path`. -/
def urlTauriPath : Url :=
  { protocol := "http", username := "", password := "", hostname := "tauri.app"
    port := "", pathname := "/path", search := "", hash := "" }

/-- The URL `http://tauri.app/path?q=1`. -/
def urlTauriPathQuery : Url :=
  { urlTauriPath with search := "q=1" }

/-- The URL `http://localhost/path`. -/
def urlLocalhostPath : Url :=
  { protocol := "http", username := "", password := "", hostname := "localhost"
    port := "", pathname := "/path", search := "", hash := "" }

/-- The URL `http://api.tauri.app/path`. -/
def urlApiTauriPath : Url :=
  { urlTauriPath with hostname := "api.tauri.app" }

/-- The URL `https://localhost/path?q=1`. -/
def urlHttpsLocalhostQuery : Url :=
  { urlLocalhostPath with protocol := "https", search := "q=1" }

/-- The URL `custom://localhost/path`. -/
def urlCustomLocalhost : Url :=
  { urlLocalhostPath with protocol := "custom" }

/-- An inline permission with identifier `read`, as a first declaration. -/
def permFirst : Permission :=
  { version := none, identifier := "read", description := some "first"
    commands := { allow := ["read_file"], deny := [] }
    scope := { allow := none, deny := none }, platforms := none }

/-- A different inline permission with the same identifier `read`. -/
def permSecond : Permission :=
  { version := none, identifier := "read", description := some "second"
    commands := { allow := [], deny := ["read_file"] }
    scope := { allow := none, deny := none }, platforms := none }

/-- A permission set with identifier `group`, as a first declaration. -/
def setFirst : PermissionSet :=
  { identifier := "group", description := "first group"
    permissions := ["read"] }

/-- A different permission set with the same identifier `group`. -/
def setSecond : PermissionSet :=
  { identifier := "group", description := "second group"
    permissions := ["write"] }

/-- A default permission with a description present. -/
def defaultFirst : DefaultPermission :=
  { version := none, description := some "first default"
    permissions := ["read"] }

/-- A default permission with no description (the fallback text applies). -/
def defaultSecond : DefaultPermission :=
  { version := none, description := none, permissions := ["write"] }

/-- A permission file declaring a default, one set and one permission. -/
def fileA : PermissionFile :=
  { default := some defaultFirst, set := [setFirst]
    permission := [permFirst] }

/-- A second permission file redeclaring the same identifiers. -/
def fileB : PermissionFile :=
  { default := some defaultSecond, set := [setSecond]
    permission := [permSecond] }

/-- `fileA`'s declarations plus `setSecond` and `permSecond`, in one file. -/
def fileJoined : PermissionFile :=
  { default := some defaultFirst, set := [setFirst, setSecond]
    permission := [permFirst, permSecond] }

/-- The continuation of `fileJoined` when its declarations are split after
`fileA`'s: no default, the remaining set and permission. -/
def fileSplitB : PermissionFile :=
  { default := none, set := [setSecond], permission := [permSecond] }

namespace BTreeMap

/-- The value of the last pair in `l` whose key is `k`, if any:
the binding that survives iterator collection and `extend`. -/
def findLast {α : Type} (l : List (String × α)) (k : String) : Option α :=
  l.foldl (fun acc kv => if kv.1 = k then some kv.2 else acc) none

theorem findLast_foldl {α : Type} (k : String) (l : List (String × α)) :
    ∀ acc : Option α,
      l.foldl (fun acc kv => if kv.1 = k then some kv.2 else acc) acc
        = (findLast l k).or acc := by
  induction l with
  | nil => intro acc; rfl
  | cons kv rest ih =>
    intro acc
    have hstep : ∀ a : Option α,
        (if kv.1 = k then some kv.2 else a)
          = Option.or (if kv.1 = k then some kv.2 else none) a := by
      intro a
      by_cases h : kv.1 = k <;> simp [h]
    show List.foldl _ (if kv.1 = k then some kv.2 else acc) rest = _
    have hfl : findLast (kv :: rest) k
        = (findLast rest k).or (if kv.1 = k then some kv.2 else none) := by
      show List.foldl _ (if kv.1 = k then some kv.2 else none) rest = _
      exact ih _
    rw [hstep acc, ih, hfl, Option.or_assoc]

theorem findLast_cons {α : Type} (kv : String × α) (l : List (String × α))
    (k : String) :
    findLast (kv :: l) k
      = (findLast l k).or (if kv.1 = k then some kv.2 else none) := by
  show List.foldl _ (if kv.1 = k then some kv.2 else none) l = _
  exact findLast_foldl k l _

theorem findLast_append {α : Type} (l₁ l₂ : List (String × α)) (k : String) :
    findLast (l₁ ++ l₂) k = (findLast l₂ k).or (findLast l₁ k) := by
  show List.foldl _ none (l₁ ++ l₂) = _
  rw [List.foldl_append]
  exact findLast_foldl k l₂ _

theorem findLast_eq_none {α : Type} {l : List (String × α)} {k : String}
    (h : ∀ kv ∈ l, kv.1 ≠ k) : findLast l k = none := by
  induction l with
  | nil => rfl
  | cons kv rest ih =>
    rw [findLast_cons, ih fun kv' h' => h kv' (List.mem_cons_of_mem _ h')]
    simp [h kv (List.mem_cons_self kv rest)]

theorem findLast_mem {α : Type} {l : List (String × α)} {k : String} {v : α}
    (h : findLast l k = some v) : (k, v) ∈ l := by
  induction l with
  | nil => simp [findLast] at h
  | cons kv rest ih =>
    rw [findLast_cons] at h
    cases hrest : findLast rest k with
    | some w =>
      rw [hrest, Option.or_some] at h
      exact List.mem_cons_of_mem _ (ih (hrest.trans h))
    | none =>
      rw [hrest, Option.none_or] at h
      by_cases hk : kv.1 = k
      · rw [if_pos hk] at h
        obtain ⟨a, b⟩ := kv
        cases hk
        cases Option.some.inj h
        exact List.mem_cons_self _ _
      · rw [if_neg hk] at h
        simp at h

theorem lookup_insert {α : Type} (m : BTreeMap α) (k : String) (v : α)
    (k' : String) :
    lookup (insert m k v) k' = if k' = k then some v else lookup m k' := by
  induction m with
  | nil => simp [insert, lookup]
  | cons kv rest ih =>
    by_cases h1 : k < kv.1
    · simp only [insert, if_pos h1, lookup]
    · by_cases h2 : k = kv.1
      · simp only [insert, if_neg h1, if_pos h2, lookup]
        by_cases h3 : k' = k
        · simp [h3]
        · have h4 : ¬k' = kv.1 := fun hc => h3 (hc.trans h2.symm)
          simp [h3, h4]
      · simp only [insert, if_neg h1, if_neg h2, lookup, ih]
        by_cases h3 : k' = kv.1
        · have h4 : ¬k' = k := fun hc => h2 (hc.symm.trans h3)
          have h5 : ¬kv.1 = k := fun hc => h2 hc.symm
          simp [h3, h4, h5]
        · simp [h3]

theorem lookup_eq_some_mem {α : Type} {m : BTreeMap α} {k : String} {v : α}
    (h : lookup m k = some v) : (k, v) ∈ m := by
  induction m with
  | nil => simp [lookup] at h
  | cons kv rest ih =>
    simp only [lookup] at h
    by_cases hk : k = kv.1
    · rw [if_pos hk] at h
      obtain ⟨a, b⟩ := kv
      cases hk
      cases Option.some.inj h
      exact List.mem_cons_self _ _
    · exact List.mem_cons_of_mem _ (ih (by rwa [if_neg hk] at h))

theorem lookup_eq_none {α : Type} {m : BTreeMap α} {k : String}
    (h : ∀ kv ∈ m, kv.1 ≠ k) : lookup m k = none := by
  induction m with
  | nil => rfl
  | cons kv rest ih =>
    simp only [lookup]
    rw [if_neg fun hc => h kv (List.mem_cons_self kv rest) hc.symm]
    exact ih fun kv' h' => h kv' (List.mem_cons_of_mem _ h')

theorem mem_insert {α : Type} {m : BTreeMap α} {k : String} {v : α}
    {kv : String × α} (h : kv ∈ insert m k v) : kv = (k, v) ∨ kv ∈ m := by
  induction m with
  | nil => simpa [insert] using h
  | cons kv' rest ih =>
    by_cases h1 : k < kv'.1
    · simpa [insert, h1] using h
    · by_cases h2 : k = kv'.1
      · simp only [insert, if_neg h1, if_pos h2] at h
        rcases List.mem_cons.mp h with h | h
        · exact Or.inl h
        · exact Or.inr (List.mem_cons_of_mem _ h)
      · simp only [insert, if_neg h1, if_neg h2] at h
        rcases List.mem_cons.mp h with h | h
        · exact Or.inr (h ▸ List.mem_cons_self kv' rest)
        · rcases ih h with h | h
          · exact Or.inl h
          · exact Or.inr (List.mem_cons_of_mem _ h)

theorem wf_insert {α : Type} {m : BTreeMap α} (k : String) (v : α)
    (h : WF m) : WF (insert m k v) := by
  induction m with
  | nil => simp [insert, WF]
  | cons kv rest ih =>
    rcases List.pairwise_cons.mp h with ⟨hlt, hrest⟩
    by_cases h1 : k < kv.1
    · simp only [insert, if_pos h1, WF]
      exact List.pairwise_cons.mpr
        ⟨fun b hb => by
          rcases List.mem_cons.mp hb with hb | hb
          · exact hb ▸ h1
          · exact lt_trans h1 (hlt b hb),
          h⟩
    · by_cases h2 : k = kv.1
      · simp only [insert, if_neg h1, if_pos h2, WF]
        exact List.pairwise_cons.mpr ⟨fun b hb => h2 ▸ hlt b hb, hrest⟩
      · have hgt : kv.1 < k :=
          lt_of_le_of_ne (not_lt.mp h1) fun hc => h2 hc.symm
        simp only [insert, if_neg h1, if_neg h2, WF]
        exact List.pairwise_cons.mpr
          ⟨fun b hb => by
            rcases mem_insert hb with hb | hb
            · exact hb ▸ hgt
            · exact hlt b hb,
            ih hrest⟩

theorem wf_foldl_insert {α : Type} (l : List (String × α)) :
    ∀ {m : BTreeMap α}, WF m →
      WF (l.foldl (fun acc kv => insert acc kv.1 kv.2) m) := by
  induction l with
  | nil => intro m h; exact h
  | cons kv rest ih => intro m h; exact ih (wf_insert kv.1 kv.2 h)

theorem wf_ofList {α : Type} (l : List (String × α)) : WF (ofList l) :=
  wf_foldl_insert l (by simp [WF])

theorem lookup_foldl_insert {α : Type} (l : List (String × α)) (k : String) :
    ∀ m : BTreeMap α,
      lookup (l.foldl (fun acc kv => insert acc kv.1 kv.2) m) k
        = (findLast l k).or (lookup m k) := by
  induction l with
  | nil => intro m; rfl
  | cons kv rest ih =>
    intro m
    show lookup (List.foldl _ (insert m kv.1 kv.2) rest) k = _
    rw [ih, lookup_insert, findLast_cons, Option.or_assoc]
    by_cases h : kv.1 = k
    · simp [h]
    · have : ¬k = kv.1 := fun hc => h hc.symm
      simp [h, this]

theorem lookup_ofList {α : Type} (l : List (String × α)) (k : String) :
    lookup (ofList l) k = findLast l k := by
  show lookup (l.foldl _ []) k = _
  rw [lookup_foldl_insert]
  show (findLast l k).or none = _
  exact Option.or_none

theorem findLast_eq_lookup_of_wf {α : Type} {m : BTreeMap α} (h : WF m)
    (k : String) : findLast m k = lookup m k := by
  induction m with
  | nil => rfl
  | cons kv rest ih =>
    rcases List.pairwise_cons.mp h with ⟨hlt, hrest⟩
    rw [findLast_cons, ih hrest]
    simp only [lookup]
    by_cases hk : kv.1 = k
    · have hnone : lookup rest k = none :=
        lookup_eq_none fun kv' h' => ne_of_gt (hk ▸ hlt kv' h')
      simp [hk, hnone]
    · have : ¬k = kv.1 := fun hc => hk hc.symm
      simp [hk, this]

theorem ext_of_wf {α : Type} :
    ∀ {m₁ m₂ : BTreeMap α}, WF m₁ → WF m₂ →
      (∀ k, lookup m₁ k = lookup m₂ k) → m₁ = m₂ := by
  intro m₁
  induction m₁ with
  | nil =>
    intro m₂ _ _ h
    cases m₂ with
    | nil => rfl
    | cons kv t =>
      have := h kv.1
      simp [lookup] at this
  | cons kv₁ t₁ ih =>
    intro m₂ h₁ h₂ h
    cases m₂ with
    | nil =>
      have := h kv₁.1
      simp [lookup] at this
    | cons kv₂ t₂ =>
      rcases List.pairwise_cons.mp h₁ with ⟨hlt₁, ht₁⟩
      rcases List.pairwise_cons.mp h₂ with ⟨hlt₂, ht₂⟩
      have hkeys : kv₁.1 = kv₂.1 := by
        by_contra hne
        have ha := h kv₁.1
        have hb := h kv₂.1
        simp only [lookup, if_pos rfl] at ha hb
        rw [if_neg fun hc => hne hc] at ha
        rw [if_neg fun hc => hne hc.symm] at hb
        have hm₁ : (kv₁.1, kv₁.2) ∈ t₂ := lookup_eq_some_mem ha.symm
        have hm₂ : (kv₂.1, kv₂.2) ∈ t₁ := lookup_eq_some_mem hb
        exact lt_asymm (hlt₂ _ hm₁) (hlt₁ _ hm₂)
      have hvals : kv₁.2 = kv₂.2 := by
        have := h kv₁.1
        simp only [lookup, if_pos rfl, if_pos hkeys] at this
        exact Option.some.inj this
      have hkv : kv₁ = kv₂ := Prod.ext hkeys hvals
      have htail : ∀ k, lookup t₁ k = lookup t₂ k := by
        intro k
        by_cases hk : k = kv₁.1
        · rw [lookup_eq_none fun kv' h' => ne_of_gt (hk ▸ hlt₁ kv' h'),
            lookup_eq_none fun kv' h' =>
              ne_of_gt (hk ▸ hkeys ▸ hlt₂ kv' h')]
        · have := h k
          simp only [lookup, if_neg hk, if_neg (hkeys ▸ hk)] at this
          exact this
      rw [hkv, ih ht₁ ht₂ htail]

theorem extend_ofList {α : Type} (m : BTreeMap α) (l : List (String × α))
    (h : WF m) :
    extend m (ofList l) = l.foldl (fun acc kv => insert acc kv.1 kv.2) m := by
  refine ext_of_wf (wf_foldl_insert _ h) (wf_foldl_insert _ h) fun k => ?_
  show lookup ((ofList l).foldl _ m) k = _
  rw [lookup_foldl_insert, lookup_foldl_insert,
    findLast_eq_lookup_of_wf (wf_ofList l), lookup_ofList]

end BTreeMap

theorem step_default_permission (m : Manifest) (f : PermissionFile) :
    (Manifest.step m f).default_permission
      = (f.default.map defaultSetOf).or m.default_permission := by
  cases h : f.default <;> simp [Manifest.step, h]

theorem step_permissions (m : Manifest) (f : PermissionFile) :
    (Manifest.step m f).permissions
      = m.permissions.extend
          (BTreeMap.ofList (f.permission.map fun p => (p.identifier, p))) := by
  cases h : f.default <;> simp [Manifest.step, h]

theorem step_permission_sets (m : Manifest) (f : PermissionFile) :
    (Manifest.step m f).permission_sets
      = m.permission_sets.extend
          (BTreeMap.ofList (f.set.map fun s =>
            (s.identifier,
              PermissionSet.mk s.identifier s.description s.permissions))) := by
  cases h : f.default <;> simp [Manifest.step, h]

theorem step_global_scope_schema (m : Manifest) (f : PermissionFile) :
    (Manifest.step m f).global_scope_schema = m.global_scope_schema := by
  cases h : f.default <;> simp [Manifest.step, h]

theorem foldl_replace_last {α β : Type} (g : α → β) (l : List α) :
    ∀ a : Option β,
      l.foldl (fun _ x => some (g x)) a = (l.getLast?.map g).or a := by
  induction l with
  | nil => intro a; rfl
  | cons x l ih =>
    intro a
    show l.foldl _ (some (g x)) = _
    rw [ih]
    cases l with
    | nil => rfl
    | cons y l' =>
      rw [List.getLast?_cons_cons]
      obtain ⟨z, hz⟩ : ∃ z, (y :: l').getLast? = some z := by
        cases h : (y :: l').getLast? with
        | some z => exact ⟨z, rfl⟩
        | none => simp at h
      rw [hz]
      simp

theorem foldl_step_default (fs : List PermissionFile) :
    ∀ m : Manifest,
      (fs.foldl Manifest.step m).default_permission
        = ((fs.filterMap PermissionFile.default).getLast?.map
            defaultSetOf).or m.default_permission := by
  induction fs with
  | nil => intro m; rfl
  | cons f fs ih =>
    intro m
    show (fs.foldl Manifest.step (Manifest.step m f)).default_permission = _
    rw [ih, step_default_permission, List.filterMap_cons]
    cases h : f.default with
    | none => simp
    | some d =>
      rw [← foldl_replace_last defaultSetOf, ← foldl_replace_last defaultSetOf]
      rfl

theorem foldl_step_permissions (fs : List PermissionFile) :
    ∀ m : Manifest, BTreeMap.WF m.permissions →
      (fs.foldl Manifest.step m).permissions
        = (fs.flatMap fun f => f.permission.map fun p =>
            (p.identifier, p)).foldl
              (fun acc kv => BTreeMap.insert acc kv.1 kv.2) m.permissions := by
  induction fs with
  | nil => intro m _; rfl
  | cons f fs ih =>
    intro m hwf
    have hstep : (Manifest.step m f).permissions
        = (f.permission.map fun p => (p.identifier, p)).foldl
            (fun acc kv => BTreeMap.insert acc kv.1 kv.2) m.permissions := by
      rw [step_permissions, BTreeMap.extend_ofList _ _ hwf]
    show (fs.foldl Manifest.step (Manifest.step m f)).permissions = _
    rw [ih _ (by rw [hstep]; exact BTreeMap.wf_foldl_insert _ hwf), hstep,
      List.flatMap_cons, List.foldl_append]

theorem foldl_step_permission_sets (fs : List PermissionFile) :
    ∀ m : Manifest, BTreeMap.WF m.permission_sets →
      (fs.foldl Manifest.step m).permission_sets
        = (fs.flatMap fun f => f.set.map fun s =>
            (s.identifier,
              PermissionSet.mk s.identifier s.description s.permissions)).foldl
              (fun acc kv => BTreeMap.insert acc kv.1 kv.2)
              m.permission_sets := by
  induction fs with
  | nil => intro m _; rfl
  | cons f fs ih =>
    intro m hwf
    have hstep : (Manifest.step m f).permission_sets
        = (f.set.map fun s =>
            (s.identifier,
              PermissionSet.mk s.identifier s.description s.permissions)).foldl
            (fun acc kv => BTreeMap.insert acc kv.1 kv.2)
            m.permission_sets := by
      rw [step_permission_sets, BTreeMap.extend_ofList _ _ hwf]
    show (fs.foldl Manifest.step (Manifest.step m f)).permission_sets = _
    rw [ih _ (by rw [hstep]; exact BTreeMap.wf_foldl_insert _ hwf), hstep,
      List.flatMap_cons, List.foldl_append]

theorem foldl_step_global (fs : List PermissionFile) :
    ∀ m : Manifest,
      (fs.foldl Manifest.step m).global_scope_schema
        = m.global_scope_schema := by
  induction fs with
  | nil => intro m; rfl
  | cons f fs ih =>
    intro m
    show (fs.foldl Manifest.step (Manifest.step m f)).global_scope_schema = _
    rw [ih, step_global_scope_schema]

theorem new_default (fs : List PermissionFile) (g : Option Value) :
    (Manifest.new fs g).default_permission
      = (fs.filterMap PermissionFile.default).getLast?.map defaultSetOf := by
  show (fs.foldl Manifest.step _).default_permission = _
  rw [foldl_step_default]
  exact Option.or_none

theorem new_permissions (fs : List PermissionFile) (g : Option Value) :
    (Manifest.new fs g).permissions
      = (fs.flatMap fun f => f.permission.map fun p =>
          (p.identifier, p)).foldl
            (fun acc kv => BTreeMap.insert acc kv.1 kv.2) [] := by
  show (fs.foldl Manifest.step _).permissions = _
  rw [foldl_step_permissions fs _ (by simp [BTreeMap.WF])]

theorem new_permission_sets (fs : List PermissionFile) (g : Option Value) :
    (Manifest.new fs g).permission_sets
      = (fs.flatMap fun f => f.set.map fun s =>
          (s.identifier,
            PermissionSet.mk s.identifier s.description s.permissions)).foldl
            (fun acc kv => BTreeMap.insert acc kv.1 kv.2) [] := by
  show (fs.foldl Manifest.step _).permission_sets = _
  rw [foldl_step_permission_sets fs _ (by simp [BTreeMap.WF])]

theorem new_global (fs : List PermissionFile) (g : Option Value) :
    (Manifest.new fs g).global_scope_schema = g := by
  show (fs.foldl Manifest.step _).global_scope_schema = _
  rw [foldl_step_global]

theorem new_permissions_lookup (fs : List PermissionFile) (g : Option Value)
    (k : String) :
    BTreeMap.lookup (Manifest.new fs g).permissions k
      = BTreeMap.findLast
          (fs.flatMap fun f => f.permission.map fun p => (p.identifier, p))
          k := by
  rw [new_permissions, BTreeMap.lookup_foldl_insert]
  exact Option.or_none

theorem new_permission_sets_lookup (fs : List PermissionFile)
    (g : Option Value) (k : String) :
    BTreeMap.lookup (Manifest.new fs g).permission_sets k
      = BTreeMap.findLast
          (fs.flatMap fun f => f.set.map fun s =>
            (s.identifier,
              PermissionSet.mk s.identifier s.description s.permissions))
          k := by
  rw [new_permission_sets, BTreeMap.lookup_foldl_insert]
  exact Option.or_none

theorem manifest_eq_of_fields {a b : Manifest}
    (h₁ : a.default_permission = b.default_permission)
    (h₂ : a.permissions = b.permissions)
    (h₃ : a.permission_sets = b.permission_sets)
    (h₄ : a.global_scope_schema = b.global_scope_schema) : a = b := by
  cases a
  cases b
  simp_all

/-- C1: For every `Commands` value and every command identifier, membership
in `deny` forces the access decision to deny, even when the identifier is
also a member of `allow` (including `allow == deny == [c]`); membership is
exact string equality, with no glob or partial matching. -/
theorem commands_deny_wins (c : Commands) (cmd : String)
    (h : cmd ∈ c.deny) : c.decide cmd = CommandDecision.deny := by
  simp [Commands.decide, h]

/-- Witness for `commands_deny_wins`, at `allow == deny == ["greet"]`. -/
theorem commands_deny_wins_witness :
    (Commands.mk ["greet"] ["greet"]).decide "greet"
      = CommandDecision.deny :=
  commands_deny_wins (Commands.mk ["greet"] ["greet"]) "greet" (by decide)

/-- C7: `Scopes::is_empty` is true iff both `allow` and `deny` are absent;
`Scopes { allow: Some([]), deny: None }` is not empty — a present but
zero-length list does not count as empty. -/
theorem scopes_is_empty_iff :
    (∀ s : Scopes, s.is_empty = true ↔ s.allow = none ∧ s.deny = none)
      ∧ (Scopes.mk (some []) none).is_empty = false := by
  constructor
  · intro s
    cases s with
    | mk a d => cases a <;> cases d <;> simp [Scopes.is_empty]
  · rfl

theorem normalizeSearch_search (i : UrlPatternInit) :
    (normalizeSearch i).search
      = if (i.search.map String.isEmpty).getD true then some "*"
        else i.search := by
  unfold normalizeSearch
  split <;> rfl

theorem normalizeSearch_rest (i : UrlPatternInit) :
    (normalizeSearch i).protocol = i.protocol
      ∧ (normalizeSearch i).username = i.username
      ∧ (normalizeSearch i).password = i.password
      ∧ (normalizeSearch i).hostname = i.hostname
      ∧ (normalizeSearch i).port = i.port
      ∧ (normalizeSearch i).pathname = i.pathname
      ∧ (normalizeSearch i).hash = i.hash := by
  unfold normalizeSearch
  split <;> exact ⟨rfl, rfl, rfl, rfl, rfl, rfl, rfl⟩

theorem normalizeHash_hash (i : UrlPatternInit) :
    (normalizeHash i).hash
      = if (i.hash.map String.isEmpty).getD true then some "*"
        else i.hash := by
  unfold normalizeHash
  split <;> rfl

theorem normalizeHash_rest (i : UrlPatternInit) :
    (normalizeHash i).protocol = i.protocol
      ∧ (normalizeHash i).username = i.username
      ∧ (normalizeHash i).password = i.password
      ∧ (normalizeHash i).hostname = i.hostname
      ∧ (normalizeHash i).port = i.port
      ∧ (normalizeHash i).pathname = i.pathname
      ∧ (normalizeHash i).search = i.search := by
  unfold normalizeHash
  split <;> exact ⟨rfl, rfl, rfl, rfl, rfl, rfl, rfl⟩

theorem normalizePathname_pathname (i : UrlPatternInit) :
    (normalizePathname i).pathname
      = if (i.pathname.map fun p => p.isEmpty || p == "/").getD true
        then some "*" else i.pathname := by
  unfold normalizePathname
  split <;> rfl

theorem normalizePathname_rest (i : UrlPatternInit) :
    (normalizePathname i).protocol = i.protocol
      ∧ (normalizePathname i).username = i.username
      ∧ (normalizePathname i).password = i.password
      ∧ (normalizePathname i).hostname = i.hostname
      ∧ (normalizePathname i).port = i.port
      ∧ (normalizePathname i).search = i.search
      ∧ (normalizePathname i).hash = i.hash := by
  unfold normalizePathname
  split <;> exact ⟨rfl, rfl, rfl, rfl, rfl, rfl, rfl⟩

theorem normalizeInit_search (i : UrlPatternInit) :
    (normalizeInit i).search
      = if (i.search.map String.isEmpty).getD true then some "*"
        else i.search := by
  unfold normalizeInit
  rw [(normalizePathname_rest _).2.2.2.2.2.1, (normalizeHash_rest _).2.2.2.2.2.2,
    normalizeSearch_search]

theorem normalizeInit_hash (i : UrlPatternInit) :
    (normalizeInit i).hash
      = if (i.hash.map String.isEmpty).getD true then some "*"
        else i.hash := by
  unfold normalizeInit
  rw [(normalizePathname_rest _).2.2.2.2.2.2, normalizeHash_hash,
    (normalizeSearch_rest _).2.2.2.2.2.2]

theorem normalizeInit_pathname (i : UrlPatternInit) :
    (normalizeInit i).pathname
      = if (i.pathname.map fun p => p.isEmpty || p == "/").getD true
        then some "*" else i.pathname := by
  unfold normalizeInit
  rw [normalizePathname_pathname, (normalizeHash_rest _).2.2.2.2.2.1,
    (normalizeSearch_rest _).2.2.2.2.2.1]

theorem normalizeInit_rest (i : UrlPatternInit) :
    (normalizeInit i).protocol = i.protocol
      ∧ (normalizeInit i).username = i.username
      ∧ (normalizeInit i).password = i.password
      ∧ (normalizeInit i).hostname = i.hostname
      ∧ (normalizeInit i).port = i.port := by
  unfold normalizeInit
  exact
    ⟨((normalizePathname_rest _).1).trans
        (((normalizeHash_rest _).1).trans (normalizeSearch_rest _).1),
      ((normalizePathname_rest _).2.1).trans
        (((normalizeHash_rest _).2.1).trans (normalizeSearch_rest _).2.1),
      ((normalizePathname_rest _).2.2.1).trans
        (((normalizeHash_rest _).2.2.1).trans (normalizeSearch_rest _).2.2.1),
      ((normalizePathname_rest _).2.2.2.1).trans
        (((normalizeHash_rest _).2.2.2.1).trans
          (normalizeSearch_rest _).2.2.2.1),
      ((normalizePathname_rest _).2.2.2.2.1).trans
        (((normalizeHash_rest _).2.2.2.2.1).trans
          (normalizeSearch_rest _).2.2.2.2.1)⟩

/-- C4: Before compiling, `RemoteUrlPattern::from_str` replaces an absent
or empty search with `*`, an absent or empty hash with `*`, and an absent,
empty or root (`/`) pathname with `*`; present non-trivial components, and
all other components, are left unchanged. -/
theorem remote_url_pattern_normalization (init : UrlPatternInit) :
    ((init.search = none ∨ init.search = some "" →
        (normalizeInit init).search = some "*")
      ∧ (∀ s, init.search = some s → s ≠ "" →
          (normalizeInit init).search = some s)
      ∧ (init.hash = none ∨ init.hash = some "" →
          (normalizeInit init).hash = some "*")
      ∧ (∀ s, init.hash = some s → s ≠ "" →
          (normalizeInit init).hash = some s)
      ∧ (init.pathname = none ∨ init.pathname = some ""
            ∨ init.pathname = some "/" →
          (normalizeInit init).pathname = some "*")
      ∧ (∀ s, init.pathname = some s → s ≠ "" → s ≠ "/" →
          (normalizeInit init).pathname = some s)
      ∧ (normalizeInit init).protocol = init.protocol
      ∧ (normalizeInit init).username = init.username
      ∧ (normalizeInit init).password = init.password
      ∧ (normalizeInit init).hostname = init.hostname
      ∧ (normalizeInit init).port = init.port) := by
  refine ⟨fun h => ?_, fun s hs hne => ?_, fun h => ?_, fun s hs hne => ?_,
    fun h => ?_, fun s hs hne hne' => ?_, (normalizeInit_rest init).1,
    (normalizeInit_rest init).2.1, (normalizeInit_rest init).2.2.1,
    (normalizeInit_rest init).2.2.2.1, (normalizeInit_rest init).2.2.2.2⟩
  · rw [normalizeInit_search]
    rcases h with h | h <;> simp [h, String.isEmpty_iff]
  · rw [normalizeInit_search, hs]
    simp [String.isEmpty_iff, hne]
  · rw [normalizeInit_hash]
    rcases h with h | h <;> simp [h, String.isEmpty_iff]
  · rw [normalizeInit_hash, hs]
    simp [String.isEmpty_iff, hne]
  · rw [normalizeInit_pathname]
    rcases h with h | h | h <;> simp [h, String.isEmpty_iff]
  · rw [normalizeInit_pathname, hs]
    simp [String.isEmpty_iff, hne, hne']

/-- Witness for `remote_url_pattern_normalization`: an init with absent
search, root pathname and non-empty hash. -/
theorem remote_url_pattern_normalization_witness :
    (normalizeInit
      (UrlPatternInit.mk (some "http") none none (some "host") none
        (some "/") none (some "frag"))).search = some "*"
    ∧ (normalizeInit
        (UrlPatternInit.mk (some "http") none none (some "host") none
          (some "/") none (some "frag"))).pathname = some "*"
    ∧ (normalizeInit
        (UrlPatternInit.mk (some "http") none none (some "host") none
          (some "/") none (some "frag"))).hash = some "frag" :=
  ⟨(remote_url_pattern_normalization _).1 (Or.inl rfl),
    (remote_url_pattern_normalization _).2.2.2.2.1 (Or.inr (Or.inr rfl)),
    (remote_url_pattern_normalization _).2.2.2.1 "frag" rfl (by decide)⟩

/-- C5: `RemoteUrlPattern::test` always produces a definite boolean and
never propagates a fault: a matcher error yields `false` (fail-closed
non-match), and a matcher verdict is returned as-is. -/
theorem remote_url_pattern_test_fail_closed (p : RemoteUrlPattern)
    (u : Url) :
    (∀ e, p.pattern.rawTest u = Except.error e → p.test u = false)
      ∧ (∀ b, p.pattern.rawTest u = Except.ok b → p.test u = b) := by
  constructor
  · intro e h
    simp [RemoteUrlPattern.test, h, Except.toOption]
  · intro b h
    simp [RemoteUrlPattern.test, h, Except.toOption]

/-- Witness for `remote_url_pattern_test_fail_closed`: a malformed URL
(empty protocol) makes the underlying matcher report an error, and `test`
returns `false`. -/
theorem remote_url_pattern_test_fail_closed_witness :
    RemoteUrlPattern.test
      ⟨UrlPattern.mk "*" "*" "*" "*" "*" "*" "*" "*", "pat"⟩
      (Url.mk "" "" "" "" "" "" "" "") = false :=
  (remote_url_pattern_test_fail_closed
      ⟨UrlPattern.mk "*" "*" "*" "*" "*" "*" "*" "*", "pat"⟩
      (Url.mk "" "" "" "" "" "" "" "")).1 "malformed URL input" rfl

/-- C6: Two `RemoteUrlPattern` values are equal iff all eight compiled
component strings are pairwise identical; the stored source text plays no
part, so patterns with identical components but different source text
compare equal. -/
theorem remote_url_pattern_eq_componentwise :
    (∀ a b : RemoteUrlPattern,
        a.beq b = true ↔
          (a.pattern.protocol = b.pattern.protocol
            ∧ a.pattern.username = b.pattern.username
            ∧ a.pattern.password = b.pattern.password
            ∧ a.pattern.hostname = b.pattern.hostname
            ∧ a.pattern.port = b.pattern.port
            ∧ a.pattern.pathname = b.pattern.pathname
            ∧ a.pattern.search = b.pattern.search
            ∧ a.pattern.hash = b.pattern.hash))
      ∧ ∀ (cs : UrlPattern) (s t : String),
          (RemoteUrlPattern.mk cs s).beq (RemoteUrlPattern.mk cs t)
            = true := by
  constructor
  · intro a b
    simp [RemoteUrlPattern.beq, and_assoc]
  · intro cs s t
    simp [RemoteUrlPattern.beq]

/-- Witness for `remote_url_pattern_eq_componentwise`: identical components
under different source texts compare equal. -/
theorem remote_url_pattern_eq_componentwise_witness :
    (RemoteUrlPattern.mk (UrlPattern.mk "http" "*" "*" "h" "*" "*" "*" "*")
        "textA").beq
      (RemoteUrlPattern.mk (UrlPattern.mk "http" "*" "*" "h" "*" "*" "*" "*")
        "textB") = true :=
  remote_url_pattern_eq_componentwise.2
    (UrlPattern.mk "http" "*" "*" "h" "*" "*" "*" "*") "textA" "textB"

/-- C9: the pattern `http://*` matches `http://tauri.app/path`,
`http://tauri.app/path?q=1` and `http://localhost/path`; the pattern
`http://*.tauri.app` matches `http://api.tauri.app/path` but not the bare
apex `http://tauri.app/path` nor `http://localhost/path`; the pattern
`*://localhost` matches `http://localhost/path`,
`https://localhost/path?q=1` and `custom://localhost/path`. -/
theorem url_pattern_concrete_tests :
    testPattern "http://*" urlTauriPath = some true
      ∧ testPattern "http://*" urlTauriPathQuery = some true
      ∧ testPattern "http://*" urlLocalhostPath = some true
      ∧ testPattern "http://*.tauri.app" urlApiTauriPath = some true
      ∧ testPattern "http://*.tauri.app" urlTauriPath = some false
      ∧ testPattern "http://*.tauri.app" urlLocalhostPath = some false
      ∧ testPattern "*://localhost" urlLocalhostPath = some true
      ∧ testPattern "*://localhost" urlHttpsLocalhostQuery = some true
      ∧ testPattern "*://localhost" urlCustomLocalhost = some true := by
  refine ⟨?_, ?_, ?_, ?_, ?_, ?_, ?_, ?_, ?_⟩ <;> decide

/-- C2: Aggregation is last-write-wins: when a file `fB` coming after a
file `fA` redeclares an identifier `fA` declared (and no later file
redeclares it), the manifest's entry for that identifier is `fB`'s
declaration in full — never a field-level merge; the same holds for
permission-set entries. -/
theorem manifest_last_write_wins :
    (∀ (fs₁ : List PermissionFile) (fA : PermissionFile)
        (fs₂ : List PermissionFile) (fB : PermissionFile)
        (fs₃ : List PermissionFile) (g : Option Value) (c : String)
        (P Q : Permission),
        P.identifier = c → P ∈ fA.permission →
        BTreeMap.findLast (fB.permission.map fun p => (p.identifier, p)) c
          = some Q →
        (∀ f ∈ fs₃, ∀ q ∈ f.permission, q.identifier ≠ c) →
        BTreeMap.lookup
            (Manifest.new (fs₁ ++ fA :: fs₂ ++ fB :: fs₃) g).permissions c
          = some Q)
      ∧ (∀ (fs₁ : List PermissionFile) (fA : PermissionFile)
          (fs₂ : List PermissionFile) (fB : PermissionFile)
          (fs₃ : List PermissionFile) (g : Option Value) (c : String)
          (S T : PermissionSet),
          S.identifier = c → S ∈ fA.set →
          BTreeMap.findLast (fB.set.map fun s =>
              (s.identifier,
                PermissionSet.mk s.identifier s.description s.permissions)) c
            = some T →
          (∀ f ∈ fs₃, ∀ t ∈ f.set, t.identifier ≠ c) →
          BTreeMap.lookup
              (Manifest.new
                (fs₁ ++ fA :: fs₂ ++ fB :: fs₃) g).permission_sets c
            = some T) := by
  constructor
  · intro fs₁ fA fs₂ fB fs₃ g c P Q hPid hPmem hB h₃
    have h₃' : BTreeMap.findLast
        (fs₃.flatMap fun f => f.permission.map fun p => (p.identifier, p)) c
        = none := by
      apply BTreeMap.findLast_eq_none
      intro kv hkv
      simp only [List.mem_flatMap, List.mem_map] at hkv
      obtain ⟨f, hf, p, hp, rfl⟩ := hkv
      exact h₃ f hf p hp
    rw [new_permissions_lookup]
    simp only [List.flatMap_append, List.flatMap_cons]
    simp only [BTreeMap.findLast_append, h₃', hB, Option.none_or,
      Option.or_some]
  · intro fs₁ fA fs₂ fB fs₃ g c S T hSid hSmem hB h₃
    have h₃' : BTreeMap.findLast
        (fs₃.flatMap fun f => f.set.map fun s =>
          (s.identifier,
            PermissionSet.mk s.identifier s.description s.permissions)) c
        = none := by
      apply BTreeMap.findLast_eq_none
      intro kv hkv
      simp only [List.mem_flatMap, List.mem_map] at hkv
      obtain ⟨f, hf, t, ht, rfl⟩ := hkv
      exact h₃ f hf t ht
    rw [new_permission_sets_lookup]
    simp only [List.flatMap_append, List.flatMap_cons]
    simp only [BTreeMap.findLast_append, h₃', hB, Option.none_or,
      Option.or_some]

/-- Witness for `manifest_last_write_wins`: `fileB` redeclares `fileA`'s
permission identifier `read` and set identifier `group`; the manifest
stores `fileB`'s declarations. -/
theorem manifest_last_write_wins_witness :
    BTreeMap.lookup (Manifest.new [fileA, fileB] none).permissions "read"
        = some permSecond
      ∧ BTreeMap.lookup
            (Manifest.new [fileA, fileB] none).permission_sets "group"
          = some setSecond :=
  ⟨manifest_last_write_wins.1 [] fileA [] fileB [] none "read"
      permFirst permSecond rfl (List.mem_cons_self _ _) rfl (by simp),
    manifest_last_write_wins.2 [] fileA [] fileB [] none "group"
      setFirst setSecond rfl (List.mem_cons_self _ _) rfl (by simp)⟩

/-- C3: When at least one file has a present default, the manifest's
default permission is built from the last such file's default: identifier
`"default"`, its description or the fallback
`"Default plugin permissions."`, and its permission list verbatim. -/
theorem manifest_default_replacement (fs : List PermissionFile)
    (g : Option Value) (d : DefaultPermission)
    (h : (fs.filterMap PermissionFile.default).getLast? = some d) :
    (Manifest.new fs g).default_permission
      = some (PermissionSet.mk "default"
          (d.description.getD "Default plugin permissions.")
          d.permissions) := by
  rw [new_default, h]
  rfl

/-- Witness for `manifest_default_replacement`: two files declare defaults;
the second one (with no description, so the fallback text applies) wins
entirely. -/
theorem manifest_default_replacement_witness :
    (Manifest.new [fileA, fileB] none).default_permission
      = some (PermissionSet.mk "default" "Default plugin permissions."
          ["write"]) :=
  manifest_default_replacement [fileA, fileB] none defaultSecond rfl

/-- C8: Splitting one file's declarations across several files fed in the
same relative order yields a manifest identical to feeding the single
unified file. -/
theorem manifest_split_aggregation (f : PermissionFile)
    (fs : List PermissionFile) (g : Option Value)
    (hperm : fs.flatMap PermissionFile.permission = f.permission)
    (hset : fs.flatMap PermissionFile.set = f.set)
    (hdef : fs.filterMap PermissionFile.default = f.default.toList) :
    Manifest.new fs g = Manifest.new [f] g := by
  apply manifest_eq_of_fields
  · have hf : ([f].filterMap PermissionFile.default) = f.default.toList := by
      cases hd : f.default <;> simp [hd]
    rw [new_default, new_default, hdef, hf]
  · rw [new_permissions, new_permissions,
      (List.map_flatMap (fun p : Permission => (p.identifier, p))
        PermissionFile.permission fs).symm,
      (List.map_flatMap (fun p : Permission => (p.identifier, p))
        PermissionFile.permission [f]).symm,
      hperm]
    simp
  · rw [new_permission_sets, new_permission_sets,
      (List.map_flatMap (fun s : PermissionSet =>
          (s.identifier,
            PermissionSet.mk s.identifier s.description s.permissions))
        PermissionFile.set fs).symm,
      (List.map_flatMap (fun s : PermissionSet =>
          (s.identifier,
            PermissionSet.mk s.identifier s.description s.permissions))
        PermissionFile.set [f]).symm,
      hset]
    simp
  · rw [new_global, new_global]

/-- Witness for `manifest_split_aggregation`: `fileJoined` split into
`fileA` followed by `fileSplitB` aggregates to the identical manifest. -/
theorem manifest_split_aggregation_witness :
    Manifest.new [fileA, fileSplitB] none
      = Manifest.new [fileJoined] none :=
  manifest_split_aggregation fileJoined [fileA, fileSplitB] none rfl rfl rfl

/-- C10: Key coherence of `Manifest::new`: every permissions-map key equals
the stored permission's identifier, every permission-sets-map key equals
the stored set's identifier, and a present default permission has
identifier `"default"`. -/
theorem manifest_key_coherence (fs : List PermissionFile)
    (g : Option Value) :
    (∀ k p, BTreeMap.lookup (Manifest.new fs g).permissions k = some p →
        p.identifier = k)
      ∧ (∀ k s,
          BTreeMap.lookup (Manifest.new fs g).permission_sets k = some s →
            s.identifier = k)
      ∧ (∀ s, (Manifest.new fs g).default_permission = some s →
          s.identifier = "default") := by
  refine ⟨?_, ?_, ?_⟩
  · intro k p h
    rw [new_permissions_lookup] at h
    have hm := BTreeMap.findLast_mem h
    simp only [List.mem_flatMap, List.mem_map] at hm
    obtain ⟨f, hf, q, hq, heq⟩ := hm
    rw [Prod.mk.injEq] at heq
    obtain ⟨h1, h2⟩ := heq
    subst h2
    exact h1
  · intro k s h
    rw [new_permission_sets_lookup] at h
    have hm := BTreeMap.findLast_mem h
    simp only [List.mem_flatMap, List.mem_map] at hm
    obtain ⟨f, hf, t, ht, heq⟩ := hm
    rw [Prod.mk.injEq] at heq
    obtain ⟨h1, h2⟩ := heq
    subst h2
    exact h1
  · intro s h
    rw [new_default] at h
    cases hx : (fs.filterMap PermissionFile.default).getLast? with
    | none =>
      rw [hx] at h
      simp at h
    | some d =>
      rw [hx] at h
      simp only [Option.map_some'] at h
      cases Option.some.inj h
      rfl

/-- Witness for `manifest_key_coherence` on a concrete one-file manifest. -/
theorem manifest_key_coherence_witness :
    permFirst.identifier = "read"
      ∧ setFirst.identifier = "group"
      ∧ (PermissionSet.mk "default" "first default" ["read"]).identifier
          = "default" :=
  ⟨(manifest_key_coherence [fileA] none).1 "read" permFirst rfl,
    (manifest_key_coherence [fileA] none).2.1 "group" setFirst rfl,
    (manifest_key_coherence [fileA] none).2.2
      (PermissionSet.mk "default" "first default" ["read"]) rfl⟩

end TauriAcl
